import Mathlib

/-!
Verification of the differential-evolution implementation (DE/rand/1/bin)
from `main.ipynb`. The numerical code is shallowly embedded: numpy float
values become rationals, numpy arrays become lists, and the global numpy
random generator becomes an explicit stream of draws indexed by a running
position counter. Loops that resample until a condition holds are given
explicit fuel and return `Option`; `none` means the fuel ran out.
-/

namespace DE

abbrev Vec := List ℚ

abbrev Pop := List Vec

/-- A source of randomness: `ints n` feeds the n-th integer draw
(`np.random.randint(0, bound)` uses it modulo the bound) and `unif n`
feeds the n-th uniform draw (`np.random.rand` / `np.random.random`). -/
structure RNG where
  ints : ℕ → ℕ
  unif : ℕ → ℚ

/-- Embedding of `check_param` from the notebook (the value constraints;
the Python dynamic type checks have no counterpart in a typed embedding).
Each violated constraint raises with the message from the source. -/
def check_param (NP : ℤ) (CR F : ℚ) (max_gen d : ℤ) (obj_bounds : List ℚ) :
    Except String Unit :=
  if NP < 4 then .error "NP must be an integer greater than or equal to 4."
  else if CR < 0 ∨ CR > 1 then .error "CR must be a float in the range [0,1]."
  else if F ≤ 0 ∨ F > 2 then .error "F must be a float in the range (0,2]."
  else if max_gen ≤ 0 then .error "max_gen must be a positive integer."
  else if d ≤ 0 then .error "d must be a positive integer."
  else if obj_bounds.length ≠ 2 then
    .error "obj_bounds must be a list-like object of length two."
  else if obj_bounds.getD 0 0 ≥ obj_bounds.getD 1 0 then
    .error "The upper bound must be greater than the lower bound."
  else .ok ()

/-- Embedding of `init_population`: `np.random.rand(NP,d)*(ub-lb)+lb`,
consuming `NP*d` uniform draws in row-major order starting at `pos`. -/
def init_population (g : RNG) (NP d : ℕ) (lb ub : ℚ) (pos : ℕ) : Pop × ℕ :=
  ((List.range NP).map fun r =>
    (List.range d).map fun c => g.unif (pos + r * d + c) * (ub - lb) + lb,
   pos + NP * d)

/-- One `while (bad r): r = np.random.randint(0,NP)` resampling loop,
with fuel bounding the number of redraws. Returns the accepted value and
the next stream position. -/
def resampleWhile (g : RNG) (NP : ℕ) (bad : ℕ → Bool) :
    ℕ → ℕ → ℕ → Option (ℕ × ℕ)
  | 0, r, pos => if bad r then none else some (r, pos)
  | fuel + 1, r, pos =>
    if bad r then resampleWhile g NP bad fuel (g.ints pos % NP) (pos + 1)
    else some (r, pos)

/-- Embedding of `pick_rand_idx`: three initial draws at `pos`, `pos+1`,
`pos+2` (`np.random.randint(0,NP,3)`), then the three rejection loops of
the source in order, redrawing from position `pos+3` onwards. -/
def pick_rand_idx (g : RNG) (fuel i NP pos : ℕ) : Option (ℕ × ℕ × ℕ × ℕ) :=
  match resampleWhile g NP (fun r => decide (r = i)) fuel
      (g.ints pos % NP) (pos + 3) with
  | none => none
  | some (r1, p1) =>
    match resampleWhile g NP (fun r => decide (r = r1) || decide (r = i)) fuel
        (g.ints (pos + 1) % NP) p1 with
    | none => none
    | some (r2, p2) =>
      match resampleWhile g NP
          (fun r => decide (r = r2) || decide (r = r1) || decide (r = i)) fuel
          (g.ints (pos + 2) % NP) p2 with
      | none => none
      | some (r3, p3) => some (r1, r2, r3, p3)

/-- Embedding of `mutate_at_pos`: draw donors with `pick_rand_idx(i, len(x))`
and return `x[r1][k] + F*(x[r2][k] - x[r3][k])`. -/
def mutate_at_pos (g : RNG) (fuel : ℕ) (x : Pop) (F : ℚ) (i k pos : ℕ) :
    Option (ℚ × ℕ) :=
  match pick_rand_idx g fuel i x.length pos with
  | none => none
  | some (r1, r2, r3, pos') =>
    some ((x.getD r1 []).getD k 0 +
      F * ((x.getD r2 []).getD k 0 - (x.getD r3 []).getD k 0), pos')

/-- The inner `for k in range(d)` loop filling the trial vector `u[i]`:
dimension `k` is mutated when `k == rnbr or randb[k] < CR`, copied from
the target `x[i][k]` otherwise. `rb` is the pre-drawn `randb` array as a
function of the dimension index. -/
def buildDims (g : RNG) (fuel : ℕ) (x : Pop) (CR F : ℚ) (i rnbr : ℕ)
    (rb : ℕ → ℚ) : ℕ → ℕ → ℕ → Option (List ℚ × ℕ)
  | 0, _, pos => some ([], pos)
  | n + 1, k, pos =>
    if k = rnbr ∨ rb k < CR then
      match mutate_at_pos g fuel x F i k pos with
      | none => none
      | some (v, pos') =>
        match buildDims g fuel x CR F i rnbr rb n (k + 1) pos' with
        | none => none
        | some (rest, pos'') => some (v :: rest, pos'')
    else
      match buildDims g fuel x CR F i rnbr rb n (k + 1) pos with
      | none => none
      | some (rest, pos') => some ((x.getD i []).getD k 0 :: rest, pos')

/-- Trial-vector construction for member `i`: one integer draw for
`rnbr = np.random.randint(d)`, then `d` uniform draws for
`randb = np.random.random(d)`, then the dimension loop. -/
def buildTrial (g : RNG) (fuel : ℕ) (x : Pop) (CR F : ℚ) (i d pos : ℕ) :
    Option (List ℚ × ℕ) :=
  buildDims g fuel x CR F i (g.ints pos % d) (fun k => g.unif (pos + 1 + k))
    d 0 (pos + 1 + d)

/-- The per-index selection of the source:
`x_g[i] = u[i] if f(u[i]) < f(x[i]) else x[i]`. -/
def selStep (f : Vec → ℚ) (target trial : Vec) : Vec :=
  if f trial < f target then trial else target

/-- The first-generation sweep over members `i, i+1, ...` (`n` members
left): donor and target reads come from the fixed array `x` while results
go to the separate array `x_g`, which is what the source does while `x`
and `x_g` are still distinct arrays. -/
def sweepSyncAux (g : RNG) (fuel : ℕ) (f : Vec → ℚ) (CR F : ℚ) (d : ℕ)
    (x : Pop) : ℕ → ℕ → ℕ → Option (Pop × ℕ)
  | 0, _, pos => some ([], pos)
  | n + 1, i, pos =>
    match buildTrial g fuel x CR F i d pos with
    | none => none
    | some (t, pos') =>
      match sweepSyncAux g fuel f CR F d x n (i + 1) pos' with
      | none => none
      | some (rest, pos'') => some (selStep f (x.getD i []) t :: rest, pos'')

/-- One synchronous generation sweep over the whole population. -/
def sweepSync (g : RNG) (fuel : ℕ) (f : Vec → ℚ) (CR F : ℚ) (d : ℕ)
    (x : Pop) (pos : ℕ) : Option (Pop × ℕ) :=
  sweepSyncAux g fuel f CR F d x x.length 0 pos

/-- A generation sweep as the source executes it from the second
generation on: after `x = x_g` both names refer to one array, so donor
and target reads for member `i` come from `cur`, the array as already
updated by the selections at indices below `i` in this same sweep. -/
def sweepAliasAux (g : RNG) (fuel : ℕ) (f : Vec → ℚ) (CR F : ℚ) (d : ℕ) :
    ℕ → Pop → ℕ → ℕ → Option (Pop × ℕ)
  | 0, cur, _, pos => some (cur, pos)
  | n + 1, cur, i, pos =>
    match buildTrial g fuel cur CR F i d pos with
    | none => none
    | some (t, pos') =>
      sweepAliasAux g fuel f CR F d n
        (cur.set i (selStep f (cur.getD i []) t)) (i + 1) pos'

/-- One aliased (in-place) generation sweep over the whole population. -/
def sweepAlias (g : RNG) (fuel : ℕ) (f : Vec → ℚ) (CR F : ℚ) (d : ℕ)
    (x : Pop) (pos : ℕ) : Option (Pop × ℕ) :=
  sweepAliasAux g fuel f CR F d x.length x 0 pos

/-- The generations after the first, each an aliased in-place sweep. -/
def deAliasIter (g : RNG) (fuel : ℕ) (f : Vec → ℚ) (CR F : ℚ) (d : ℕ) :
    ℕ → Pop → ℕ → Option (Pop × ℕ)
  | 0, x, pos => some (x, pos)
  | n + 1, x, pos =>
    match sweepAlias g fuel f CR F d x pos with
    | none => none
    | some (x1, p1) => deAliasIter g fuel f CR F d n x1 p1

/-- The full generation loop of `differential_evolution`: the first
generation writes `x_g` while `x` is still the freshly initialised array
(a synchronous sweep); after `x = x_g` every later generation reads and
writes the same array (aliased sweeps). -/
def deGens (g : RNG) (fuel : ℕ) (f : Vec → ℚ) (CR F : ℚ) (d : ℕ) :
    ℕ → Pop → ℕ → Option (Pop × ℕ)
  | 0, x, pos => some (x, pos)
  | n + 1, x, pos =>
    match sweepSync g fuel f CR F d x pos with
    | none => none
    | some (x1, p1) => deAliasIter g fuel f CR F d n x1 p1

/-- Modelled from the spec: the generational loop as the specification
describes it, every generation a synchronous sweep reading only the
previous, completed generation. Used to compare the source loop `deGens`
against the specified synchronous semantics. -/
def deGensSynchronous (g : RNG) (fuel : ℕ) (f : Vec → ℚ) (CR F : ℚ)
    (d : ℕ) : ℕ → Pop → ℕ → Option (Pop × ℕ)
  | 0, x, pos => some (x, pos)
  | n + 1, x, pos =>
    match sweepSync g fuel f CR F d x pos with
    | none => none
    | some (x1, p1) => deGensSynchronous g fuel f CR F d n x1 p1

/-- The final `np.argmin` scan over fitnesses: `cur` is the index of the
next member `v`, `bi` the best index so far, `bv` its fitness; a strict
improvement moves the best index, so ties keep the earliest index. -/
def idxBestAux (f : Vec → ℚ) : Pop → ℕ → ℕ → ℚ → ℕ
  | [], _, bi, _ => bi
  | v :: rest, cur, bi, bv =>
    if f v < bv then idxBestAux f rest (cur + 1) cur (f v)
    else idxBestAux f rest (cur + 1) bi bv

/-- Index of the first member of minimum fitness (`np.argmin`). -/
def idx_best (f : Vec → ℚ) : Pop → ℕ
  | [] => 0
  | v :: rest => idxBestAux f rest 1 0 (f v)

/-- Embedding of `differential_evolution`. The `check_param` call is
commented out in the source, so no validation happens here either: the
population is initialised from position 0, `max_gen` generations run
(`while n_gen < max_gen`, so a negative budget runs none), and the member
at the first minimum-fitness index is returned. -/
def differential_evolution (g : RNG) (fuel NP : ℕ) (f : Vec → ℚ)
    (CR F : ℚ) (max_gen : ℤ) (d : ℕ) (lb ub : ℚ) : Option Vec :=
  let ip := init_population g NP d lb ub 0
  match deGens g fuel f CR F d max_gen.toNat ip.1 ip.2 with
  | none => none
  | some (x, _) => some (x.getD (idx_best f x) [])

/-- The `for v in x` scan of `rand_search`, carrying the best solution
and its score; a strict improvement replaces the best. -/
def rand_search_scan (f : Vec → ℚ) : Pop → Vec → ℚ → Vec × ℚ
  | [], bs, bv => (bs, bv)
  | v :: rest, bs, bv =>
    if f v < bv then rand_search_scan f rest v (f v)
    else rand_search_scan f rest bs bv

/-- The `while n_gen < max_gen` loop of `rand_search`: each iteration
draws a whole fresh population and scans it. -/
def rand_search_loop (g : RNG) (NP : ℕ) (f : Vec → ℚ) (d : ℕ)
    (lb ub : ℚ) : ℕ → Vec → ℚ → ℕ → Vec
  | 0, bs, _, _ => bs
  | n + 1, bs, bv, pos =>
    let ip := init_population g NP d lb ub pos
    let sc := rand_search_scan f ip.1 bs bv
    rand_search_loop g NP f d lb ub n sc.1 sc.2 ip.2

/-- Embedding of `rand_search`: the pre-loop population contributes only
its member 0 (`best_sol = x[0]; best_score = f(x[0])`), then the loop
repeatedly replaces `x` by a fresh population and scans it. -/
def rand_search (g : RNG) (NP : ℕ) (f : Vec → ℚ) (max_gen d : ℕ)
    (lb ub : ℚ) : Vec :=
  let ip := init_population g NP d lb ub 0
  rand_search_loop g NP f d lb ub max_gen (ip.1.getD 0 [])
    (f (ip.1.getD 0 [])) ip.2

/-- The multiset of vectors `rand_search` actually scores inside the
loop: all members of each of the `max_gen` freshly drawn populations, in
draw order. -/
def rs_candidates (g : RNG) (NP d : ℕ) (lb ub : ℚ) : ℕ → ℕ → Pop
  | 0, _ => []
  | n + 1, pos =>
    let ip := init_population g NP d lb ub pos
    ip.1 ++ rs_candidates g NP d lb ub n ip.2

/-- Objective used for concrete runs: the first coordinate of the vector. -/
def objHead : Vec → ℚ := fun v => v.getD 0 0

/-- A concrete deterministic randomness source used for concrete runs. -/
def gLin : RNG := ⟨fun n => (n + 1) % 4, fun n => ((n % 7 : ℕ) : ℚ) / 7⟩

/-- The population that `init_population gLin 4 1 0 1 0` produces. -/
def popLin : Pop := [[0], [1/7], [2/7], [3/7]]

/-! ### Lemmas about the rejection-sampling loops -/

lemma resampleWhile_some_spec (g : RNG) (NP : ℕ) (bad : ℕ → Bool) :
    ∀ fuel r pos r' pos', resampleWhile g NP bad fuel r pos = some (r', pos') →
      bad r' = false ∧ (r' = r ∨ ∃ q, r' = g.ints q % NP) ∧ pos ≤ pos' := by
  intro fuel
  induction fuel with
  | zero =>
    intro r pos r' pos' h
    simp only [resampleWhile] at h
    split at h
    · exact absurd h (by simp)
    · rename_i hb
      simp only [Option.some.injEq, Prod.mk.injEq] at h
      obtain ⟨h1, h2⟩ := h
      subst h1; subst h2
      exact ⟨by simpa using hb, Or.inl rfl, le_rfl⟩
  | succ n ih =>
    intro r pos r' pos' h
    simp only [resampleWhile] at h
    split at h
    · obtain ⟨h1, h2, h3⟩ := ih _ _ _ _ h
      refine ⟨h1, Or.inr ?_, le_trans (Nat.le_succ pos) h3⟩
      rcases h2 with he | ⟨q, hq⟩
      · exact ⟨pos, he⟩
      · exact ⟨q, hq⟩
    · rename_i hb
      simp only [Option.some.injEq, Prod.mk.injEq] at h
      obtain ⟨h1, h2⟩ := h
      subst h1; subst h2
      exact ⟨by simpa using hb, Or.inl rfl, le_rfl⟩

lemma resampleWhile_none_of_all (g : RNG) (NP : ℕ) (bad : ℕ → Bool)
    (hNP : 0 < NP) (hall : ∀ v, v < NP → bad v = true) :
    ∀ fuel r pos, bad r = true → resampleWhile g NP bad fuel r pos = none := by
  intro fuel
  induction fuel with
  | zero => intro r pos hr; simp [resampleWhile, hr]
  | succ n ih =>
    intro r pos hr
    simp only [resampleWhile]
    rw [if_pos hr]
    exact ih _ _ (hall _ (Nat.mod_lt _ hNP))

lemma pick_rand_idx_spec (g : RNG) (fuel i NP pos r1 r2 r3 p : ℕ)
    (hNP : 0 < NP) (h : pick_rand_idx g fuel i NP pos = some (r1, r2, r3, p)) :
    r1 < NP ∧ r2 < NP ∧ r3 < NP ∧ r1 ≠ i ∧ r2 ≠ i ∧ r3 ≠ i ∧
      r2 ≠ r1 ∧ r3 ≠ r1 ∧ r3 ≠ r2 ∧ pos + 3 ≤ p := by
  unfold pick_rand_idx at h
  split at h
  · exact absurd h (by simp)
  · rename_i a1 p1 h1
    split at h
    · exact absurd h (by simp)
    · rename_i a2 p2 h2
      split at h
      · exact absurd h (by simp)
      · rename_i a3 p3 h3
        simp only [Option.some.injEq, Prod.mk.injEq] at h
        obtain ⟨rfl, rfl, rfl, rfl⟩ := h
        obtain ⟨b1, m1, q1⟩ := resampleWhile_some_spec g NP _ _ _ _ _ _ h1
        obtain ⟨b2, m2, q2⟩ := resampleWhile_some_spec g NP _ _ _ _ _ _ h2
        obtain ⟨b3, m3, q3⟩ := resampleWhile_some_spec g NP _ _ _ _ _ _ h3
        have hr1 : a1 < NP := by
          rcases m1 with he | ⟨q, hq⟩
          · exact he ▸ Nat.mod_lt _ hNP
          · exact hq ▸ Nat.mod_lt _ hNP
        have hr2 : a2 < NP := by
          rcases m2 with he | ⟨q, hq⟩
          · exact he ▸ Nat.mod_lt _ hNP
          · exact hq ▸ Nat.mod_lt _ hNP
        have hr3 : a3 < NP := by
          rcases m3 with he | ⟨q, hq⟩
          · exact he ▸ Nat.mod_lt _ hNP
          · exact hq ▸ Nat.mod_lt _ hNP
        have n1 : a1 ≠ i := by simpa using b1
        simp only [Bool.or_eq_false_iff, decide_eq_false_iff_not] at b2 b3
        exact ⟨hr1, hr2, hr3, n1, b2.2, b3.2, b2.1, b3.1.2, b3.1.1,
          le_trans q1 (le_trans q2 q3)⟩

lemma pick_rand_idx_pos_le (g : RNG) (fuel i NP pos r1 r2 r3 p : ℕ)
    (h : pick_rand_idx g fuel i NP pos = some (r1, r2, r3, p)) :
    pos + 3 ≤ p := by
  unfold pick_rand_idx at h
  split at h
  · exact absurd h (by simp)
  · rename_i a1 p1 h1
    split at h
    · exact absurd h (by simp)
    · rename_i a2 p2 h2
      split at h
      · exact absurd h (by simp)
      · rename_i a3 p3 h3
        simp only [Option.some.injEq, Prod.mk.injEq] at h
        obtain ⟨-, -, -, rfl⟩ := h
        obtain ⟨-, -, q1⟩ := resampleWhile_some_spec g NP _ _ _ _ _ _ h1
        obtain ⟨-, -, q2⟩ := resampleWhile_some_spec g NP _ _ _ _ _ _ h2
        obtain ⟨-, -, q3⟩ := resampleWhile_some_spec g NP _ _ _ _ _ _ h3
        exact le_trans q1 (le_trans q2 q3)

/-- C3: for NP ≥ 4 and any target index i < NP, whenever `pick_rand_idx`
returns, the three returned indices are in [0, NP), pairwise distinct,
and each distinct from i. -/
theorem pick_rand_idx_distinct (g : RNG) (fuel i NP pos r1 r2 r3 p : ℕ)
    (h4 : 4 ≤ NP) (_hi : i < NP)
    (h : pick_rand_idx g fuel i NP pos = some (r1, r2, r3, p)) :
    (r1 < NP ∧ r2 < NP ∧ r3 < NP) ∧ (r1 ≠ i ∧ r2 ≠ i ∧ r3 ≠ i) ∧
      r1 ≠ r2 ∧ r1 ≠ r3 ∧ r2 ≠ r3 := by
  obtain ⟨a1, a2, a3, b1, b2, b3, c1, c2, c3, -⟩ :=
    pick_rand_idx_spec g fuel i NP pos r1 r2 r3 p (by omega) h
  exact ⟨⟨a1, a2, a3⟩, ⟨b1, b2, b3⟩, Ne.symm c1, Ne.symm c2, Ne.symm c3⟩

/-- Witness for C3 at a concrete run: `pick_rand_idx gLin 5 0 4 0`
returns (1, 2, 3), which are in range, pairwise distinct, and distinct
from the target index 0. -/
theorem pick_rand_idx_distinct_witness :
    (4 ≤ 4 ∧ 0 < 4) ∧
      (((1:ℕ) < 4 ∧ (2:ℕ) < 4 ∧ (3:ℕ) < 4) ∧
        ((1:ℕ) ≠ 0 ∧ (2:ℕ) ≠ 0 ∧ (3:ℕ) ≠ 0) ∧
        (1:ℕ) ≠ 2 ∧ (1:ℕ) ≠ 3 ∧ (2:ℕ) ≠ 3) :=
  ⟨⟨by decide, by decide⟩,
    pick_rand_idx_distinct gLin 5 0 4 0 1 2 3 3 (by decide) (by decide)
      (by decide)⟩

/-! ### Termination of the rejection sampling (C9) -/

/-- First coordinate of an explicit donor triple avoiding `i`. -/
def t1For (i : ℕ) : ℕ := if i = 0 then 1 else 0

/-- Second coordinate of an explicit donor triple avoiding `i`. -/
def t2For (i : ℕ) : ℕ := if i ≤ 1 then 2 else 1

/-- Third coordinate of an explicit donor triple avoiding `i`. -/
def t3For (i : ℕ) : ℕ := if i ≤ 2 then 3 else 2

/-- A randomness source whose first three integer draws are the explicit
donor triple, so the rejection loops accept immediately. -/
def tripleRNG (i : ℕ) : RNG :=
  ⟨fun n => if n = 0 then t1For i else if n = 1 then t2For i else t3For i,
   fun _ => 0⟩

lemma tripleFacts (i : ℕ) :
    t1For i ≤ 1 ∧ t2For i ≤ 2 ∧ t3For i ≤ 3 ∧ t1For i ≠ i ∧ t2For i ≠ i ∧
      t3For i ≠ i ∧ t2For i ≠ t1For i ∧ t3For i ≠ t1For i ∧
      t3For i ≠ t2For i := by
  unfold t1For t2For t3For
  split_ifs <;> omega

lemma pick_tripleRNG (i NP : ℕ) (h4 : 4 ≤ NP) (_hi : i < NP) :
    pick_rand_idx (tripleRNG i) 0 i NP 0 =
      some (t1For i, t2For i, t3For i, 3) := by
  obtain ⟨l1, l2, l3, n1, n2, n3, d21, d31, d32⟩ := tripleFacts i
  have e1 : (tripleRNG i).ints 0 % NP = t1For i := by
    show t1For i % NP = t1For i
    exact Nat.mod_eq_of_lt (by omega)
  have e2 : (tripleRNG i).ints (0 + 1) % NP = t2For i := by
    show t2For i % NP = t2For i
    exact Nat.mod_eq_of_lt (by omega)
  have e3 : (tripleRNG i).ints (0 + 2) % NP = t3For i := by
    show t3For i % NP = t3For i
    exact Nat.mod_eq_of_lt (by omega)
  have b1 : ¬(decide (t1For i = i) = true) := by simpa using n1
  have b2 : ¬((decide (t2For i = t1For i) || decide (t2For i = i)) = true) := by
    simp [d21, n2]
  have b3 : ¬((decide (t3For i = t2For i) || decide (t3For i = t1For i) ||
      decide (t3For i = i)) = true) := by
    simp [d32, d31, n3]
  simp only [pick_rand_idx, e1, e2, e3, resampleWhile, if_neg b1, if_neg b2,
    if_neg b3]

/-- C9: the rejection-sampling loop of `pick_rand_idx` can terminate for
every target index i in [0, NP) whenever NP ≥ 4 (a suitable sequence of
draws makes it return), and for NP < 4 it never returns, whatever the
draws and however much fuel it gets. -/
theorem pick_rand_idx_termination (i NP : ℕ) (hi : i < NP) :
    (4 ≤ NP → ∃ g : RNG, (pick_rand_idx g 0 i NP 0).isSome = true) ∧
    (NP < 4 → ∀ (g : RNG) (fuel pos : ℕ),
      pick_rand_idx g fuel i NP pos = none) := by
  constructor
  · intro h4
    exact ⟨tripleRNG i, by rw [pick_tripleRNG i NP h4 hi]; rfl⟩
  · intro h4 g fuel pos
    have hNP : 0 < NP := by omega
    rcases h1 : resampleWhile g NP (fun r => decide (r = i)) fuel
        (g.ints pos % NP) (pos + 3) with _ | ⟨r1, p1⟩
    · simp only [pick_rand_idx, h1]
    · obtain ⟨b1, m1, -⟩ := resampleWhile_some_spec g NP _ _ _ _ _ _ h1
      have hr1 : r1 < NP := by
        rcases m1 with he | ⟨q, hq⟩
        · exact he ▸ Nat.mod_lt _ hNP
        · exact hq ▸ Nat.mod_lt _ hNP
      have n1 : r1 ≠ i := by simpa using b1
      rcases h2 : resampleWhile g NP
          (fun r => decide (r = r1) || decide (r = i)) fuel
          (g.ints (pos + 1) % NP) p1 with _ | ⟨r2, p2⟩
      · simp only [pick_rand_idx, h1, h2]
      · obtain ⟨b2, m2, -⟩ := resampleWhile_some_spec g NP _ _ _ _ _ _ h2
        have hr2 : r2 < NP := by
          rcases m2 with he | ⟨q, hq⟩
          · exact he ▸ Nat.mod_lt _ hNP
          · exact hq ▸ Nat.mod_lt _ hNP
        simp only [Bool.or_eq_false_iff, decide_eq_false_iff_not] at b2
        have hall : ∀ v, v < NP →
            (fun r => decide (r = r2) || decide (r = r1) ||
              decide (r = i)) v = true := by
          intro v hv
          have hv3 : v = r2 ∨ v = r1 ∨ v = i := by
            have hb1 := b2.1
            have hb2 := b2.2
            clear m1 m2 h1 h2 b2
            omega
          rcases hv3 with rfl | rfl | rfl <;> simp
        have h3 : resampleWhile g NP
            (fun r => decide (r = r2) || decide (r = r1) || decide (r = i))
            fuel (g.ints (pos + 2) % NP) p2 = none :=
          resampleWhile_none_of_all g NP _ hNP hall fuel _ _
            (hall _ (Nat.mod_lt _ hNP))
        simp only [pick_rand_idx, h1, h2, h3]

/-- Witness for C9 at i = 0, NP = 4: the loop can terminate, and the
impossibility clause is vacuous. -/
theorem pick_rand_idx_termination_witness :
    ((0:ℕ) < 4) ∧
      ((4 ≤ 4 → ∃ g : RNG, (pick_rand_idx g 0 0 4 0).isSome = true) ∧
        (4 < 4 → ∀ (g : RNG) (fuel pos : ℕ),
          pick_rand_idx g fuel 0 4 pos = none)) :=
  ⟨by decide, pick_rand_idx_termination 0 4 (by decide)⟩

/-! ### Mutation and trial-vector construction (C4, C6) -/

lemma buildDims_spec (g : RNG) (fuel : ℕ) (x : Pop) (CR F : ℚ) (i rnbr : ℕ)
    (rb : ℕ → ℚ) :
    ∀ n k pos t pos',
      buildDims g fuel x CR F i rnbr rb n k pos = some (t, pos') →
      t.length = n ∧ ∀ j, j < n →
        ((k + j = rnbr ∨ rb (k + j) < CR →
          ∃ q q' v, mutate_at_pos g fuel x F i (k + j) q = some (v, q') ∧
            t.getD j 0 = v) ∧
        (¬(k + j = rnbr ∨ rb (k + j) < CR) →
          t.getD j 0 = (x.getD i []).getD (k + j) 0)) := by
  intro n
  induction n with
  | zero =>
    intro k pos t pos' h
    simp only [buildDims, Option.some.injEq, Prod.mk.injEq] at h
    obtain ⟨rfl, rfl⟩ := h
    exact ⟨rfl, fun j hj => absurd hj (by omega)⟩
  | succ n ih =>
    intro k pos t pos' h
    simp only [buildDims] at h
    split at h
    · rename_i hcond
      split at h
      · exact absurd h (by simp)
      · rename_i v pos1 hm
        split at h
        · exact absurd h (by simp)
        · rename_i rest pos2 hrest
          simp only [Option.some.injEq, Prod.mk.injEq] at h
          obtain ⟨rfl, rfl⟩ := h
          obtain ⟨hlen, hall⟩ := ih (k + 1) pos1 rest pos2 hrest
          refine ⟨by simp [hlen], ?_⟩
          intro j hj
          cases j with
          | zero =>
            constructor
            · intro _
              exact ⟨pos, pos1, v, hm, rfl⟩
            · intro hnot
              exact absurd hcond hnot
          | succ j =>
            have hj' : j < n := by omega
            obtain ⟨ihc, ihn⟩ := hall j hj'
            have hkj : k + (j + 1) = k + 1 + j := by omega
            constructor
            · intro hc
              simp only [List.getD_cons_succ]
              rw [hkj]
              exact ihc (by rw [hkj] at hc; exact hc)
            · intro hnc
              simp only [List.getD_cons_succ]
              rw [hkj]
              exact ihn (by rw [hkj] at hnc; exact hnc)
    · rename_i hcond
      split at h
      · exact absurd h (by simp)
      · rename_i rest pos1 hrest
        simp only [Option.some.injEq, Prod.mk.injEq] at h
        obtain ⟨rfl, rfl⟩ := h
        obtain ⟨hlen, hall⟩ := ih (k + 1) pos rest pos1 hrest
        refine ⟨by simp [hlen], ?_⟩
        intro j hj
        cases j with
        | zero =>
          constructor
          · intro hc
            exact absurd hc hcond
          · intro _
            rfl
        | succ j =>
          have hj' : j < n := by omega
          obtain ⟨ihc, ihn⟩ := hall j hj'
          have hkj : k + (j + 1) = k + 1 + j := by omega
          constructor
          · intro hc
            simp only [List.getD_cons_succ]
            rw [hkj]
            exact ihc (by rw [hkj] at hc; exact hc)
          · intro hnc
            simp only [List.getD_cons_succ]
            rw [hkj]
            exact ihn (by rw [hkj] at hnc; exact hnc)

/-- C6: the mutated component is exactly
`x[r1][k] + F * (x[r2][k] - x[r3][k])` with the donor triple freshly
drawn by `pick_rand_idx` at the current stream position (no clamping of
the result), and inside trial construction every mutated dimension gets
its own `mutate_at_pos` call, hence its own freshly drawn donor triple. -/
theorem mutate_formula_fresh_per_dim (g : RNG) (fuel : ℕ) (x : Pop)
    (CR F : ℚ) (i d pos : ℕ) :
    (∀ k v pos', mutate_at_pos g fuel x F i k pos = some (v, pos') →
      ∃ r1 r2 r3,
        pick_rand_idx g fuel i x.length pos = some (r1, r2, r3, pos') ∧
        v = (x.getD r1 []).getD k 0 +
          F * ((x.getD r2 []).getD k 0 - (x.getD r3 []).getD k 0) ∧
        pos + 3 ≤ pos') ∧
    (∀ t pos', buildTrial g fuel x CR F i d pos = some (t, pos') →
      ∀ k, k < d → (k = g.ints pos % d ∨ g.unif (pos + 1 + k) < CR) →
        ∃ q q' w, mutate_at_pos g fuel x F i k q = some (w, q') ∧
          t.getD k 0 = w) := by
  constructor
  · intro k v pos' h
    unfold mutate_at_pos at h
    split at h
    · exact absurd h (by simp)
    · rename_i r1 r2 r3 p hp
      simp only [Option.some.injEq, Prod.mk.injEq] at h
      obtain ⟨rfl, rfl⟩ := h
      exact ⟨r1, r2, r3, hp, rfl,
        pick_rand_idx_pos_le g fuel i x.length pos r1 r2 r3 _ hp⟩
  · intro t pos' h k hk hc
    unfold buildTrial at h
    obtain ⟨-, hall⟩ := buildDims_spec g fuel x CR F i _ _ d 0 _ t pos' h
    have hk1 := (hall k hk).1
    simp only [Nat.zero_add] at hk1
    exact hk1 hc

/-- Witness for C6 at a concrete run: `mutate_at_pos gLin 5 popLin 1 0 0 4`
returns the difference-mutation value 0 at stream position 7. -/
theorem mutate_formula_fresh_per_dim_witness :
    ∃ r1 r2 r3,
      pick_rand_idx gLin 5 0 popLin.length 4 = some (r1, r2, r3, 7) ∧
      (0:ℚ) = (popLin.getD r1 []).getD 0 0 +
        1 * ((popLin.getD r2 []).getD 0 0 - (popLin.getD r3 []).getD 0 0) ∧
      4 + 3 ≤ 7 :=
  (mutate_formula_fresh_per_dim gLin 5 popLin 1 1 0 1 4).1 0 0 7
    (by norm_num [mutate_at_pos, pick_rand_idx, resampleWhile, gLin, popLin])

/-- An identity integer stream with zero uniform stream, used for the C4
counterexample. -/
def gId : RNG := ⟨fun n => n, fun _ => 0⟩

/-- A population of four identical members. -/
def popZero : Pop := [[0], [0], [0], [0]]

/-- C4 counterexample: on a population of identical members the trial
vector for target 0 is exactly the target vector, although its single
dimension was produced by mutation — difference mutation on equal donors
reproduces the target value, so the trial vector can be identical to the
target. -/
theorem trial_equals_target_example :
    buildTrial gId 1 popZero (1/2) 1 0 1 0 = some (popZero.getD 0 [], 6) := by
  norm_num [buildTrial, buildDims, mutate_at_pos, pick_rand_idx,
    resampleWhile, gId, popZero]

/-- C4 amended: trial dimension k is produced by mutation exactly when
k equals the drawn rnbr or the k-th uniform draw is below CR, and is a
copy of the target component otherwise; the rnbr dimension always comes
from a mutation call. (The trial vector can still be value-identical to
the target, as the counterexample shows.) -/
theorem trial_construction_conditional (g : RNG) (fuel : ℕ) (x : Pop)
    (CR F : ℚ) (i d pos : ℕ) (t : List ℚ) (pos' : ℕ)
    (h : buildTrial g fuel x CR F i d pos = some (t, pos')) :
    t.length = d ∧
    (∀ k, k < d → ¬(k = g.ints pos % d ∨ g.unif (pos + 1 + k) < CR) →
      t.getD k 0 = (x.getD i []).getD k 0) ∧
    (∀ k, k < d → (k = g.ints pos % d ∨ g.unif (pos + 1 + k) < CR) →
      ∃ q q' w, mutate_at_pos g fuel x F i k q = some (w, q') ∧
        t.getD k 0 = w) ∧
    (0 < d →
      ∃ q q' w,
        mutate_at_pos g fuel x F i (g.ints pos % d) q = some (w, q') ∧
        t.getD (g.ints pos % d) 0 = w) := by
  unfold buildTrial at h
  obtain ⟨hlen, hall⟩ := buildDims_spec g fuel x CR F i _ _ d 0 _ t pos' h
  refine ⟨hlen, ?_, ?_, ?_⟩
  · intro k hk hnc
    have hk2 := (hall k hk).2
    simp only [Nat.zero_add] at hk2
    exact hk2 hnc
  · intro k hk hc
    have hk1 := (hall k hk).1
    simp only [Nat.zero_add] at hk1
    exact hk1 hc
  · intro hd
    have hm : g.ints pos % d < d := Nat.mod_lt _ hd
    have hk1 := (hall _ hm).1
    simp only [Nat.zero_add] at hk1
    exact hk1 (by simp)

/-- Witness for the amended C4 at a concrete run: the trial vector for
target 0 is [4/7], built by mutation in its single dimension. -/
theorem trial_construction_conditional_witness :
    [(4:ℚ)/7].length = 1 ∧
    (∀ k, k < 1 → ¬(k = gLin.ints 4 % 1 ∨ gLin.unif (4 + 1 + k) < 1/2) →
      [(4:ℚ)/7].getD k 0 = (popLin.getD 0 []).getD k 0) ∧
    (∀ k, k < 1 → (k = gLin.ints 4 % 1 ∨ gLin.unif (4 + 1 + k) < 1/2) →
      ∃ q q' w, mutate_at_pos gLin 5 popLin 1 0 k q = some (w, q') ∧
        [(4:ℚ)/7].getD k 0 = w) ∧
    (0 < 1 →
      ∃ q q' w,
        mutate_at_pos gLin 5 popLin 1 0 (gLin.ints 4 % 1) q = some (w, q') ∧
        [(4:ℚ)/7].getD (gLin.ints 4 % 1) 0 = w) :=
  trial_construction_conditional gLin 5 popLin (1/2) 1 0 1 4 [4/7] 10
    (by norm_num [buildTrial, buildDims, mutate_at_pos, pick_rand_idx,
      resampleWhile, gLin, popLin])

/-! ### Generation sweeps and selection (C5, C1) -/

lemma getD_set_ne (l : Pop) (i j : ℕ) (a : Vec) (h : i ≠ j) :
    (l.set i a).getD j [] = l.getD j [] := by
  simp [List.getD_eq_getElem?_getD, List.getElem?_set_ne h]

lemma getD_set_self (l : Pop) (i : ℕ) (a : Vec) (h : i < l.length) :
    (l.set i a).getD i [] = a := by
  simp [List.getD_eq_getElem?_getD, List.getElem?_set_self, h]

lemma getD_default_of_le (l : Pop) (j : ℕ) (h : l.length ≤ j) :
    l.getD j [] = [] := by
  simp [List.getD_eq_getElem?_getD, List.getElem?_eq_none h]

lemma sweepSyncAux_spec (g : RNG) (fuel : ℕ) (f : Vec → ℚ) (CR F : ℚ)
    (d : ℕ) (x : Pop) :
    ∀ n i pos rest pos',
      sweepSyncAux g fuel f CR F d x n i pos = some (rest, pos') →
      rest.length = n ∧ ∀ j, j < n →
        rest.getD j [] = x.getD (i + j) [] ∨
          f (rest.getD j []) < f (x.getD (i + j) []) := by
  intro n
  induction n with
  | zero =>
    intro i pos rest pos' h
    simp only [sweepSyncAux, Option.some.injEq, Prod.mk.injEq] at h
    obtain ⟨rfl, rfl⟩ := h
    exact ⟨rfl, fun j hj => absurd hj (by omega)⟩
  | succ n ih =>
    intro i pos rest pos' h
    simp only [sweepSyncAux] at h
    split at h
    · exact absurd h (by simp)
    · rename_i t pos1 ht
      split at h
      · exact absurd h (by simp)
      · rename_i rest1 pos2 hrest
        simp only [Option.some.injEq, Prod.mk.injEq] at h
        obtain ⟨rfl, rfl⟩ := h
        obtain ⟨hlen, hall⟩ := ih (i + 1) pos1 rest1 pos2 hrest
        refine ⟨by simp [hlen], ?_⟩
        intro j hj
        cases j with
        | zero =>
          simp only [List.getD_cons_zero]
          unfold selStep
          split
          · rename_i hlt
            right
            exact hlt
          · left
            rfl
        | succ j =>
          have hj' : j < n := by omega
          have hkj : i + (j + 1) = i + 1 + j := by omega
          simp only [List.getD_cons_succ]
          rw [hkj]
          exact hall j hj'

lemma sweepAliasAux_spec (g : RNG) (fuel : ℕ) (f : Vec → ℚ) (CR F : ℚ)
    (d : ℕ) :
    ∀ n cur i pos P p',
      sweepAliasAux g fuel f CR F d n cur i pos = some (P, p') →
      P.length = cur.length ∧
      (∀ j, j < i ∨ i + n ≤ j → P.getD j [] = cur.getD j []) ∧
      (∀ j, i ≤ j → j < i + n →
        P.getD j [] = cur.getD j [] ∨
          f (P.getD j []) < f (cur.getD j [])) := by
  intro n
  induction n with
  | zero =>
    intro cur i pos P p' h
    simp only [sweepAliasAux, Option.some.injEq, Prod.mk.injEq] at h
    obtain ⟨rfl, rfl⟩ := h
    exact ⟨rfl, fun j _ => rfl, fun j h1 h2 => absurd h2 (by omega)⟩
  | succ n ih =>
    intro cur i pos P p' h
    simp only [sweepAliasAux] at h
    split at h
    · exact absurd h (by simp)
    · rename_i t pos1 ht
      obtain ⟨hlen, hout, hin⟩ :=
        ih (cur.set i (selStep f (cur.getD i []) t)) (i + 1) pos1 P p' h
      have hlset := List.length_set cur i (selStep f (cur.getD i []) t)
      refine ⟨by rw [hlen, hlset], ?_, ?_⟩
      · intro j hj
        have hne : i ≠ j := by omega
        have hPj := hout j (by omega)
        rw [hPj, getD_set_ne cur i j _ hne]
      · intro j h1 h2
        by_cases hij : j = i
        · subst hij
          have hPj := hout j (by omega)
          rw [hPj]
          by_cases hlt : j < cur.length
          · rw [getD_set_self cur j _ hlt]
            unfold selStep
            split
            · rename_i hl
              right
              exact hl
            · left
              rfl
          · have hge : cur.length ≤ j := by omega
            left
            rw [getD_default_of_le _ j (by rw [hlset]; exact hge),
              getD_default_of_le cur j hge]
        · have h1' : i + 1 ≤ j := by omega
          have hj := hin j h1' (by omega)
          rwa [getD_set_ne cur i j _ (by omega)] at hj

/-- C5: a generation sweep never degrades any index, in both forms the
source executes (the first-generation sweep into a separate array, and
the aliased in-place sweep of all later generations): each member of the
resulting population is either the unchanged target at that index at the
start of the sweep, or a trial vector of strictly lower fitness; hence
the fitness at each index never increases across a generation. -/
theorem selection_never_degrades (g : RNG) (fuel : ℕ) (f : Vec → ℚ)
    (CR F : ℚ) (d : ℕ) (x : Pop) (pos : ℕ) (P : Pop) (pos' : ℕ) :
    (sweepSync g fuel f CR F d x pos = some (P, pos') →
      ∀ i, i < x.length →
        (P.getD i [] = x.getD i [] ∨ f (P.getD i []) < f (x.getD i [])) ∧
        f (P.getD i []) ≤ f (x.getD i [])) ∧
    (sweepAlias g fuel f CR F d x pos = some (P, pos') →
      ∀ i, i < x.length →
        (P.getD i [] = x.getD i [] ∨ f (P.getD i []) < f (x.getD i [])) ∧
        f (P.getD i []) ≤ f (x.getD i [])) := by
  constructor
  · intro h i hi
    unfold sweepSync at h
    obtain ⟨-, hall⟩ :=
      sweepSyncAux_spec g fuel f CR F d x x.length 0 pos P pos' h
    have hd := hall i hi
    simp only [Nat.zero_add] at hd
    refine ⟨hd, ?_⟩
    rcases hd with he | hlt
    · rw [he]
    · exact le_of_lt hlt
  · intro h i hi
    unfold sweepAlias at h
    obtain ⟨-, -, hin⟩ :=
      sweepAliasAux_spec g fuel f CR F d x.length x 0 pos P pos' h
    have hd := hin i (by omega) (by omega)
    refine ⟨hd, ?_⟩
    rcases hd with he | hlt
    · rw [he]
    · exact le_of_lt hlt

/-- The population the first-generation sweep produces on the concrete
run used as the C5 witness. -/
def popSync : Pop := [[0], [-1/7], [2/7], [-1/7]]

/-- Witness for C5 at a concrete run: at index 1 the sweep replaced the
member by a strictly fitter trial, and the fitness did not increase. -/
theorem selection_never_degrades_witness :
    (1 < popLin.length) ∧
      ((popSync.getD 1 [] = popLin.getD 1 [] ∨
        objHead (popSync.getD 1 []) < objHead (popLin.getD 1 [])) ∧
       objHead (popSync.getD 1 []) ≤ objHead (popLin.getD 1 [])) :=
  ⟨by decide,
    (selection_never_degrades gLin 5 objHead (1/2) 1 1 popLin 4 popSync
        26).1
      (by norm_num [sweepSync, sweepSyncAux, buildTrial, buildDims,
        mutate_at_pos, pick_rand_idx, resampleWhile, selStep, gLin, popLin,
        popSync, objHead])
      1 (by decide)⟩

/-- C1 (code bug): the source rebinds `x = x_g` after the first
generation without copying, so from the second generation on both names
alias one array and a selection write at a lower index is visible to the
donor reads of later members of the same sweep. On this concrete
two-generation run the generation loop of the code (`deGens`) therefore
differs from the synchronous semantics (`deGensSynchronous`) that the
specification prescribes for every generation after the first. -/
theorem aliasing_breaks_synchrony :
    deGens gLin 5 objHead (1/2) 1 1 2 (init_population gLin 4 1 0 1 0).1
        (init_population gLin 4 1 0 1 0).2 ≠
      deGensSynchronous gLin 5 objHead (1/2) 1 1 2
        (init_population gLin 4 1 0 1 0).1
        (init_population gLin 4 1 0 1 0).2 := by
  norm_num [deGens, deGensSynchronous, deAliasIter, sweepSync, sweepAlias,
    sweepSyncAux, sweepAliasAux, buildTrial, buildDims, mutate_at_pos,
    pick_rand_idx, resampleWhile, selStep, gLin, objHead, init_population,
    List.range_succ]

/-! ### Final argmin and the top-level search (C7) -/

lemma init_population_length (g : RNG) (NP d : ℕ) (lb ub : ℚ) (pos : ℕ) :
    (init_population g NP d lb ub pos).1.length = NP := by
  simp [init_population]

lemma sweepSync_length (g : RNG) (fuel : ℕ) (f : Vec → ℚ) (CR F : ℚ)
    (d : ℕ) (x : Pop) (pos : ℕ) (P : Pop) (pos' : ℕ)
    (h : sweepSync g fuel f CR F d x pos = some (P, pos')) :
    P.length = x.length := by
  unfold sweepSync at h
  obtain ⟨hlen, -⟩ := sweepSyncAux_spec g fuel f CR F d x x.length 0 pos P
    pos' h
  exact hlen

lemma sweepAlias_length (g : RNG) (fuel : ℕ) (f : Vec → ℚ) (CR F : ℚ)
    (d : ℕ) (x : Pop) (pos : ℕ) (P : Pop) (pos' : ℕ)
    (h : sweepAlias g fuel f CR F d x pos = some (P, pos')) :
    P.length = x.length := by
  unfold sweepAlias at h
  obtain ⟨hlen, -, -⟩ := sweepAliasAux_spec g fuel f CR F d x.length x 0 pos
    P pos' h
  exact hlen

lemma deAliasIter_length (g : RNG) (fuel : ℕ) (f : Vec → ℚ) (CR F : ℚ)
    (d : ℕ) :
    ∀ n x pos P p', deAliasIter g fuel f CR F d n x pos = some (P, p') →
      P.length = x.length := by
  intro n
  induction n with
  | zero =>
    intro x pos P p' h
    simp only [deAliasIter, Option.some.injEq, Prod.mk.injEq] at h
    obtain ⟨rfl, rfl⟩ := h
    rfl
  | succ n ih =>
    intro x pos P p' h
    simp only [deAliasIter] at h
    split at h
    · exact absurd h (by simp)
    · rename_i x1 p1 h1
      rw [ih x1 p1 P p' h, sweepAlias_length g fuel f CR F d x pos x1 p1 h1]

lemma deGens_length (g : RNG) (fuel : ℕ) (f : Vec → ℚ) (CR F : ℚ) (d : ℕ) :
    ∀ n x pos P p', deGens g fuel f CR F d n x pos = some (P, p') →
      P.length = x.length := by
  intro n
  cases n with
  | zero =>
    intro x pos P p' h
    simp only [deGens, Option.some.injEq, Prod.mk.injEq] at h
    obtain ⟨rfl, rfl⟩ := h
    rfl
  | succ n =>
    intro x pos P p' h
    simp only [deGens] at h
    split at h
    · exact absurd h (by simp)
    · rename_i x1 p1 h1
      rw [deAliasIter_length g fuel f CR F d n x1 p1 P p' h,
        sweepSync_length g fuel f CR F d x pos x1 p1 h1]

lemma idxBestAux_spec (f : Vec → ℚ) :
    ∀ (ys : Pop) (cur bi : ℕ) (bv : ℚ) (fit : ℕ → ℚ),
      (∀ j, j < ys.length → fit (cur + j) = f (ys.getD j [])) →
      bi < cur → bv = fit bi →
      (∀ j, j < cur → bv ≤ fit j) →
      (∀ j, j < bi → bv < fit j) →
      idxBestAux f ys cur bi bv < cur + ys.length ∧
      (∀ j, j < cur + ys.length → fit (idxBestAux f ys cur bi bv) ≤ fit j) ∧
      (∀ j, j < idxBestAux f ys cur bi bv →
        fit (idxBestAux f ys cur bi bv) < fit j) := by
  intro ys
  induction ys with
  | nil =>
    intro cur bi bv fit hfit hbi hbv hle hstrict
    simp only [idxBestAux, List.length_nil, Nat.add_zero]
    refine ⟨hbi, ?_, ?_⟩
    · intro j hj
      rw [← hbv]
      exact hle j hj
    · intro j hj
      rw [← hbv]
      exact hstrict j hj
  | cons v ys ih =>
    intro cur bi bv fit hfit hbi hbv hle hstrict
    have hfv : fit cur = f v := hfit 0 (by simp)
    have hfit' : ∀ j, j < ys.length → fit (cur + 1 + j) = f (ys.getD j []) := by
      intro j hj
      have hh := hfit (j + 1) (by simpa using hj)
      rw [show cur + (j + 1) = cur + 1 + j by omega] at hh
      simpa using hh
    simp only [idxBestAux, List.length_cons]
    by_cases hlt : f v < bv
    · rw [if_pos hlt]
      obtain ⟨c1, c2, c3⟩ := ih (cur + 1) cur (f v) fit hfit' (by omega)
        hfv.symm
        (fun j hj => by
          rcases Nat.lt_succ_iff_lt_or_eq.mp hj with hj' | rfl
          · exact le_of_lt (lt_of_lt_of_le hlt (hle j hj'))
          · exact le_of_eq hfv.symm)
        (fun j hj => lt_of_lt_of_le hlt (hle j hj))
      exact ⟨by omega, fun j hj => c2 j (by omega), c3⟩
    · rw [if_neg hlt]
      obtain ⟨c1, c2, c3⟩ := ih (cur + 1) bi bv fit hfit' (by omega) hbv
        (fun j hj => by
          rcases Nat.lt_succ_iff_lt_or_eq.mp hj with hj' | rfl
          · exact hle j hj'
          · rw [hfv]; exact not_lt.mp hlt)
        hstrict
      exact ⟨by omega, fun j hj => c2 j (by omega), c3⟩

lemma idx_best_spec (f : Vec → ℚ) (x : Pop) (hx : x ≠ []) :
    idx_best f x < x.length ∧
    (∀ j, j < x.length →
      f (x.getD (idx_best f x) []) ≤ f (x.getD j [])) ∧
    (∀ j, j < idx_best f x →
      f (x.getD (idx_best f x) []) < f (x.getD j [])) := by
  cases x with
  | nil => exact absurd rfl hx
  | cons v rest =>
    obtain ⟨c1, c2, c3⟩ := idxBestAux_spec f rest 1 0 (f v)
      (fun j => f ((v :: rest).getD j []))
      (fun j hj => by
        rw [show (1:ℕ) + j = j + 1 by omega]
        simp)
      (by omega) (by simp)
      (fun j hj => by
        have hj0 : j = 0 := by omega
        subst hj0
        simp)
      (fun j hj => absurd hj (by omega))
    simp only [idx_best, List.length_cons]
    refine ⟨by omega, ?_, ?_⟩
    · intro j hj
      exact c2 j (by omega)
    · intro j hj
      exact c3 j hj

/-- C7: differential_evolution runs its generation loop for exactly
`max_gen` generations (none when the budget is not positive) and returns
the member of the final population at the first index of minimum
fitness: the returned vector is a member of the final population, its
fitness is at or below every member of that population, and every index
before the chosen one has strictly larger fitness. With a zero budget
the returned vector is the first fitness minimiser of the freshly
initialised random population itself. -/
theorem de_runs_and_returns_argmin (g : RNG) (fuel NP : ℕ) (f : Vec → ℚ)
    (CR F : ℚ) (max_gen : ℤ) (d : ℕ) (lb ub : ℚ) (hNP : 0 < NP) :
    (max_gen.toNat = 0 →
      differential_evolution g fuel NP f CR F max_gen d lb ub =
        some ((init_population g NP d lb ub 0).1.getD
          (idx_best f (init_population g NP d lb ub 0).1) []) ∧
      (init_population g NP d lb ub 0).1.getD
          (idx_best f (init_population g NP d lb ub 0).1) [] ∈
        (init_population g NP d lb ub 0).1) ∧
    (∀ v, differential_evolution g fuel NP f CR F max_gen d lb ub = some v →
      ∃ xf p,
        deGens g fuel f CR F d max_gen.toNat
          (init_population g NP d lb ub 0).1
          (init_population g NP d lb ub 0).2 = some (xf, p) ∧
        xf.length = NP ∧ v = xf.getD (idx_best f xf) [] ∧ v ∈ xf ∧
        (∀ j, j < NP → f v ≤ f (xf.getD j [])) ∧
        (∀ j, j < idx_best f xf → f v < f (xf.getD j []))) := by
  have hlen0 := init_population_length g NP d lb ub 0
  have hne : (init_population g NP d lb ub 0).1 ≠ [] := by
    intro he
    rw [he] at hlen0
    simp at hlen0
    omega
  constructor
  · intro h0
    obtain ⟨hb, -, -⟩ := idx_best_spec f _ hne
    constructor
    · simp only [differential_evolution, h0, deGens]
    · rw [List.getD_eq_getElem _ [] hb]
      exact List.getElem_mem _
  · intro v hv
    simp only [differential_evolution] at hv
    split at hv
    · exact absurd hv (by simp)
    · rename_i xf p hgens
      simp only [Option.some.injEq] at hv
      subst hv
      have hlenf : xf.length = NP := by
        rw [deGens_length g fuel f CR F d max_gen.toNat _ _ xf p hgens,
          hlen0]
      have hnef : xf ≠ [] := by
        intro he
        rw [he] at hlenf
        simp at hlenf
        omega
      obtain ⟨hb, hmin, hstrict⟩ := idx_best_spec f xf hnef
      refine ⟨xf, p, hgens, hlenf, rfl, ?_, ?_, hstrict⟩
      · rw [List.getD_eq_getElem _ [] hb]
        exact List.getElem_mem _
      · intro j hj
        exact hmin j (by omega)

/-- Witness for C7: the concrete zero-budget run returns the first
fitness minimiser of the initial random population. -/
theorem de_runs_and_returns_argmin_witness :
    ((0:ℕ) < 4) ∧
      ((Int.toNat 0 = 0 →
        differential_evolution gLin 5 4 objHead (1/2) 1 0 1 0 1 =
          some ((init_population gLin 4 1 0 1 0).1.getD
            (idx_best objHead (init_population gLin 4 1 0 1 0).1) []) ∧
        (init_population gLin 4 1 0 1 0).1.getD
            (idx_best objHead (init_population gLin 4 1 0 1 0).1) [] ∈
          (init_population gLin 4 1 0 1 0).1) ∧
      (∀ v, differential_evolution gLin 5 4 objHead (1/2) 1 0 1 0 1 =
          some v →
        ∃ xf p,
          deGens gLin 5 objHead (1/2) 1 1 (Int.toNat 0)
            (init_population gLin 4 1 0 1 0).1
            (init_population gLin 4 1 0 1 0).2 = some (xf, p) ∧
          xf.length = 4 ∧ v = xf.getD (idx_best objHead xf) [] ∧ v ∈ xf ∧
          (∀ j, j < 4 → objHead v ≤ objHead (xf.getD j [])) ∧
          (∀ j, j < idx_best objHead xf →
            objHead v < objHead (xf.getD j [])))) :=
  ⟨by decide,
    de_runs_and_returns_argmin gLin 5 4 objHead (1/2) 1 0 1 0 1 (by decide)⟩

/-! ### Random search (C10) -/

lemma rand_search_scan_spec (f : Vec → ℚ) :
    ∀ (xs : Pop) (bs : Vec) (bv : ℚ), bv = f bs →
      (rand_search_scan f xs bs bv).2 = f (rand_search_scan f xs bs bv).1 ∧
      ((rand_search_scan f xs bs bv).1 = bs ∨
        (rand_search_scan f xs bs bv).1 ∈ xs) ∧
      f (rand_search_scan f xs bs bv).1 ≤ f bs ∧
      (∀ v, v ∈ xs → f (rand_search_scan f xs bs bv).1 ≤ f v) := by
  intro xs
  induction xs with
  | nil =>
    intro bs bv hbv
    subst hbv
    exact ⟨rfl, Or.inl rfl, le_rfl, fun v hv => absurd hv (by simp)⟩
  | cons w xs ih =>
    intro bs bv hbv
    subst hbv
    simp only [rand_search_scan]
    by_cases hlt : f w < f bs
    · rw [if_pos hlt]
      obtain ⟨c1, c2, c3, c4⟩ := ih w (f w) rfl
      refine ⟨c1, ?_, le_of_lt (lt_of_le_of_lt c3 hlt), ?_⟩
      · rcases c2 with he | hm
        · exact Or.inr (by rw [he]; exact List.mem_cons_self w xs)
        · exact Or.inr (List.mem_cons_of_mem w hm)
      · intro v hv
        rcases List.mem_cons.mp hv with rfl | hv'
        · exact c3
        · exact c4 v hv'
    · rw [if_neg hlt]
      obtain ⟨c1, c2, c3, c4⟩ := ih bs (f bs) rfl
      refine ⟨c1, ?_, c3, ?_⟩
      · rcases c2 with he | hm
        · exact Or.inl he
        · exact Or.inr (List.mem_cons_of_mem w hm)
      · intro v hv
        rcases List.mem_cons.mp hv with rfl | hv'
        · exact le_trans c3 (not_lt.mp hlt)
        · exact c4 v hv'

lemma rand_search_loop_spec (g : RNG) (NP : ℕ) (f : Vec → ℚ) (d : ℕ)
    (lb ub : ℚ) :
    ∀ (n : ℕ) (bs : Vec) (bv : ℚ) (pos : ℕ), bv = f bs →
      (rand_search_loop g NP f d lb ub n bs bv pos = bs ∨
        rand_search_loop g NP f d lb ub n bs bv pos ∈
          rs_candidates g NP d lb ub n pos) ∧
      f (rand_search_loop g NP f d lb ub n bs bv pos) ≤ f bs ∧
      (∀ v, v ∈ rs_candidates g NP d lb ub n pos →
        f (rand_search_loop g NP f d lb ub n bs bv pos) ≤ f v) := by
  intro n
  induction n with
  | zero =>
    intro bs bv pos hbv
    exact ⟨Or.inl rfl, le_rfl, fun v hv => absurd hv (by simp [rs_candidates])⟩
  | succ n ih =>
    intro bs bv pos hbv
    simp only [rand_search_loop, rs_candidates]
    obtain ⟨s1, s2, s3, s4⟩ :=
      rand_search_scan_spec f (init_population g NP d lb ub pos).1 bs bv hbv
    obtain ⟨c1, c2, c3⟩ := ih (rand_search_scan f
        (init_population g NP d lb ub pos).1 bs bv).1
      (rand_search_scan f (init_population g NP d lb ub pos).1 bs bv).2
      (init_population g NP d lb ub pos).2 s1
    refine ⟨?_, le_trans c2 s3, ?_⟩
    · rcases c1 with he | hm
      · rcases s2 with he' | hm'
        · exact Or.inl (by rw [he, he'])
        · exact Or.inr (by rw [he]; exact List.mem_append_left _ hm')
      · exact Or.inr (List.mem_append_right _ hm)
    · intro v hv
      rcases List.mem_append.mp hv with hv' | hv'
      · exact le_trans c2 (s4 v hv')
      · exact c3 v hv'

/-- C10: rand_search evaluates only member 0 of the pre-loop initial
population; the returned vector is a minimum-fitness sample among that
first initial vector and the members of the max_gen freshly drawn
per-generation populations, and with max_gen = 0 it returns the first
vector of the initial population unconditionally, the fitness of the
never-evaluated members 1..NP-1 notwithstanding. -/
theorem rand_search_only_first_initial (g : RNG) (NP : ℕ) (f : Vec → ℚ)
    (max_gen d : ℕ) (lb ub : ℚ) :
    (rand_search g NP f max_gen d lb ub ∈
      (init_population g NP d lb ub 0).1.getD 0 [] ::
        rs_candidates g NP d lb ub max_gen
          (init_population g NP d lb ub 0).2) ∧
    (∀ v, v ∈ (init_population g NP d lb ub 0).1.getD 0 [] ::
        rs_candidates g NP d lb ub max_gen
          (init_population g NP d lb ub 0).2 →
      f (rand_search g NP f max_gen d lb ub) ≤ f v) ∧
    (max_gen = 0 → rand_search g NP f max_gen d lb ub =
      (init_population g NP d lb ub 0).1.getD 0 []) := by
  obtain ⟨c1, c2, c3⟩ := rand_search_loop_spec g NP f d lb ub max_gen
    ((init_population g NP d lb ub 0).1.getD 0 [])
    (f ((init_population g NP d lb ub 0).1.getD 0 []))
    (init_population g NP d lb ub 0).2 rfl
  refine ⟨?_, ?_, ?_⟩
  · rcases c1 with he | hm
    · exact he ▸ List.mem_cons_self _ _
    · exact List.mem_cons_of_mem _ hm
  · intro v hv
    rcases List.mem_cons.mp hv with rfl | hv'
    · exact c2
    · exact c3 v hv'
  · intro h0
    subst h0
    rfl

/-- Witness for C10: the concrete zero-iteration run returns the first
vector of the initial population. -/
theorem rand_search_only_first_initial_witness :
    rand_search gLin 4 objHead 0 1 0 1 =
      (init_population gLin 4 1 0 1 0).1.getD 0 [] :=
  (rand_search_only_first_initial gLin 4 objHead 0 1 0 1).2.2 rfl

/-! ### Population initialisation (C8) -/

/-- C8: init_population returns exactly NP vectors, each of dimension d,
and when the uniform draws lie in [0, 1) and lb < ub every component c
satisfies lb ≤ c < ub. -/
theorem init_population_shape_range (g : RNG) (NP d : ℕ) (lb ub : ℚ)
    (pos : ℕ) (hu : ∀ n, 0 ≤ g.unif n ∧ g.unif n < 1) (hlt : lb < ub) :
    (init_population g NP d lb ub pos).1.length = NP ∧
    (∀ v, v ∈ (init_population g NP d lb ub pos).1 → v.length = d) ∧
    (∀ v, v ∈ (init_population g NP d lb ub pos).1 →
      ∀ c, c ∈ v → lb ≤ c ∧ c < ub) := by
  refine ⟨init_population_length g NP d lb ub pos, ?_, ?_⟩
  · intro v hv
    simp only [init_population, List.mem_map] at hv
    obtain ⟨r, -, rfl⟩ := hv
    simp
  · intro v hv c hc
    simp only [init_population, List.mem_map] at hv
    obtain ⟨r, -, rfl⟩ := hv
    simp only [List.mem_map] at hc
    obtain ⟨j, -, rfl⟩ := hc
    obtain ⟨h0, h1⟩ := hu (pos + r * d + j)
    constructor
    · nlinarith
    · nlinarith

/-- Witness for C8 at the concrete stream gLin, whose uniform draws are
k/7 with k < 7: four vectors of dimension 1 with components in [0, 1). -/
theorem init_population_shape_range_witness :
    ((0:ℚ) < 1) ∧
      ((init_population gLin 4 1 0 1 0).1.length = 4 ∧
      (∀ v, v ∈ (init_population gLin 4 1 0 1 0).1 → v.length = 1) ∧
      (∀ v, v ∈ (init_population gLin 4 1 0 1 0).1 →
        ∀ c, c ∈ v → (0:ℚ) ≤ c ∧ c < 1)) :=
  ⟨by norm_num,
    init_population_shape_range gLin 4 1 0 1 0
      (by
        intro n
        simp only [gLin]
        constructor
        · positivity
        · rw [div_lt_one (by norm_num : (0:ℚ) < 7)]
          have h7 : n % 7 < 7 := Nat.mod_lt _ (by norm_num)
          exact_mod_cast h7)
      (by norm_num)⟩

/-! ### Parameter validation (C2) -/

/-- C2 counterexample: a single call violating all four documented
constraints at once (NP = 3, CR = 3/2, F = 0, max_gen = -1) raises
nothing and is not rejected: the check_param call in the source is
commented out, so differential_evolution initialises a population,
evaluates the objective over it and returns a result normally. -/
theorem de_no_validation_example :
    differential_evolution gLin 0 3 objHead (3/2) 0 (-1) 1 0 1 =
      some [0] := by
  norm_num [show ((-1:ℤ)).toNat = 0 from rfl, differential_evolution,
    deGens, idx_best, idxBestAux, init_population, List.range_succ, gLin,
    objHead]

/-- C2 amended: the check_param function itself rejects NP = 3, CR = 1.5,
F = 0 and max_gen = -1, each with an error message naming the offending
parameter and its constraint; but differential_evolution never invokes it
(the call is commented out in the source), so a call violating all four
constraints at once proceeds through population initialisation and
objective evaluation and returns a result, raising nothing. -/
theorem check_param_rejects_but_unused :
    check_param 3 (9/10) (8/10) 100 2 [-1, 1] =
      .error "NP must be an integer greater than or equal to 4." ∧
    check_param 10 (3/2) (8/10) 100 2 [-1, 1] =
      .error "CR must be a float in the range [0,1]." ∧
    check_param 10 (9/10) 0 100 2 [-1, 1] =
      .error "F must be a float in the range (0,2]." ∧
    check_param 10 (9/10) (8/10) (-1) 2 [-1, 1] =
      .error "max_gen must be a positive integer." ∧
    differential_evolution gLin 0 3 objHead (3/2) 0 (-1) 1 0 1 =
      some [0] := by
  refine ⟨?_, ?_, ?_, ?_, ?_⟩
  · norm_num [check_param]
  · norm_num [check_param]
  · norm_num [check_param]
  · norm_num [check_param]
  · norm_num [show ((-1:ℤ)).toNat = 0 from rfl, differential_evolution,
      deGens, idx_best, idxBestAux, init_population, List.range_succ, gLin,
      objHead]

end DE
